import Mathlib

/-!
Verification of the `ray-tracer-challenge-rust` renderer against its
natural-language specification.

Shallow embedding conventions, used throughout this file:

* `f64` values are modelled as exact rationals (`ℚ`); the IEEE-754 special
  values matter only for `util::eq_f64`, which is additionally modelled on an
  extended type `F64` carrying the infinities and NaN.
* The square-root and power primitives of `f64` are transcendental, so they
  are carried as an explicit parameter record `Prims`; every theorem below
  quantifies over it (adding, where needed, facts such as `sqrt 0 = 0` that
  hold for the real primitive).
* A Rust `panic!` / `unwrap` failure is modelled by `Option.none`: a function
  that can panic returns `Option α`, and `none` means the Rust program
  aborts rather than returning a value.
* Trait objects (`dyn Shape`, `dyn Pattern`) are modelled as records of their
  method functions, which is exactly the vtable a trait object carries.
* `Uuid` identifiers are modelled as `ℕ`.
-/

namespace RT

/-! ## util.rs -/

/-- The global epsilon constant `EPSILON: f64 = 0.00001` from `util.rs`. -/
def EPSILON : ℚ := 1 / 100000

/-- An `f64` with the special values relevant to `eq_f64`: a finite value
(modelled exactly as a rational), the two infinities, and NaN. -/
inductive F64 where
  | finite (q : ℚ)
  | posInf
  | negInf
  | nan
  deriving DecidableEq

/-- IEEE-754 subtraction on `F64` (finite arithmetic is exact). -/
def F64.sub : F64 → F64 → F64
  | .finite a, .finite b => .finite (a - b)
  | .finite _, .posInf => .negInf
  | .finite _, .negInf => .posInf
  | .posInf, .finite _ => .posInf
  | .posInf, .negInf => .posInf
  | .posInf, .posInf => .nan
  | .negInf, .finite _ => .negInf
  | .negInf, .posInf => .negInf
  | .negInf, .negInf => .nan
  | .nan, _ => .nan
  | _, .nan => .nan

/-- IEEE-754 absolute value on `F64`. -/
def F64.abs : F64 → F64
  | .finite a => .finite |a|
  | .posInf => .posInf
  | .negInf => .posInf
  | .nan => .nan

/-- IEEE-754 `<` on `F64` (any comparison with NaN is false). -/
def F64.lt : F64 → F64 → Bool
  | .finite a, .finite b => decide (a < b)
  | .finite _, .posInf => true
  | .finite _, .negInf => false
  | .posInf, _ => false
  | .negInf, .finite _ => true
  | .negInf, .posInf => true
  | .negInf, .negInf => false
  | .nan, _ => false
  | _, .nan => false

/-- `util::eq_f64`: both `+∞`, or both `-∞`, or `(a - b).abs() < EPSILON`. -/
def eq_f64 (a b : F64) : Bool :=
  if (a = .posInf && b = .posInf) || (a = .negInf && b = .negInf) then
    true
  else
    (a.sub b).abs.lt (.finite EPSILON)

/-- The restriction of `eq_f64` to finite values; all `f64` data outside
`util.rs` is modelled as exact rationals, so this is the comparison the rest
of the development uses. -/
def eqF64 (a b : ℚ) : Bool := decide (|a - b| < EPSILON)

theorem eq_f64_finite (a b : ℚ) : eq_f64 (.finite a) (.finite b) = eqF64 a b := rfl

/-! ## tuple.rs -/

/-- Homogeneous 4-component tuple (`tuple.rs`). -/
structure Tuple where
  x : ℚ
  y : ℚ
  z : ℚ
  w : ℚ
  deriving DecidableEq

/-- `Tuple::point`: w = 1. -/
def Tuple.point (x y z : ℚ) : Tuple := ⟨x, y, z, 1⟩

/-- `Tuple::vector`: w = 0. -/
def Tuple.vector (x y z : ℚ) : Tuple := ⟨x, y, z, 0⟩

/-- `Tuple::origin`. -/
def Tuple.origin : Tuple := Tuple.point 0 0 0

/-- `Tuple::is_point`. -/
def Tuple.is_point (t : Tuple) : Bool := t.w = 1

/-- `Tuple::is_vector`. -/
def Tuple.is_vector (t : Tuple) : Bool := t.w = 0

/-- `impl Add for Tuple` (componentwise). -/
def Tuple.add (a b : Tuple) : Tuple := ⟨a.x + b.x, a.y + b.y, a.z + b.z, a.w + b.w⟩

/-- `impl Sub for Tuple` (componentwise). -/
def Tuple.sub (a b : Tuple) : Tuple := ⟨a.x - b.x, a.y - b.y, a.z - b.z, a.w - b.w⟩

/-- `impl Neg for Tuple`. -/
def Tuple.neg (a : Tuple) : Tuple := ⟨-a.x, -a.y, -a.z, -a.w⟩

/-- `impl Mul<f64> for Tuple` (scalar multiplication). -/
def Tuple.smul (a : Tuple) (s : ℚ) : Tuple := ⟨a.x * s, a.y * s, a.z * s, a.w * s⟩

/-- `impl Div<f64> for Tuple` (componentwise division by a scalar). -/
def Tuple.divs (a : Tuple) (s : ℚ) : Tuple := ⟨a.x / s, a.y / s, a.z / s, a.w / s⟩

/-- `impl Mul for Tuple`: the dot product. -/
def Tuple.dot (a b : Tuple) : ℚ := a.x * b.x + a.y * b.y + a.z * b.z + a.w * b.w

/-- `Tuple::as_vector` (sets w to 0; the Rust method mutates in place). -/
def Tuple.as_vector (a : Tuple) : Tuple := ⟨a.x, a.y, a.z, 0⟩

/-- `impl PartialEq for Tuple`: componentwise `eq_f64`. -/
def Tuple.eqB (a b : Tuple) : Bool :=
  eqF64 a.x b.x && eqF64 a.y b.y && eqF64 a.z b.z && eqF64 a.w b.w

/-- The `f64` primitives (`sqrt`, `powf`) the source calls; carried as an
explicit parameter of the embedding. -/
structure Prims where
  sqrt : ℚ → ℚ
  powf : ℚ → ℚ → ℚ

/-- `Tuple::magnitude`. -/
def Tuple.magnitude (prims : Prims) (a : Tuple) : ℚ :=
  prims.sqrt (a.x ^ 2 + a.y ^ 2 + a.z ^ 2 + a.w ^ 2)

/-- `Tuple::normalize`. -/
def Tuple.normalize (prims : Prims) (a : Tuple) : Tuple :=
  a.divs (a.magnitude prims)

/-- `Tuple::reflect`. -/
def Tuple.reflect (a normal : Tuple) : Tuple :=
  a.sub ((normal.smul 2).smul (a.dot normal))

/-! ## color.rs -/

/-- RGB color (`color.rs`). -/
structure Color where
  red : ℚ
  green : ℚ
  blue : ℚ
  deriving DecidableEq

/-- `Colors::Black`. -/
def Color.black : Color := ⟨0, 0, 0⟩

/-- `Colors::White`. -/
def Color.white : Color := ⟨1, 1, 1⟩

/-- `impl Add for Color` (via tuples; componentwise). -/
def Color.add (a b : Color) : Color := ⟨a.red + b.red, a.green + b.green, a.blue + b.blue⟩

/-- `impl Mul<f64> for Color`. -/
def Color.smul (a : Color) (s : ℚ) : Color := ⟨a.red * s, a.green * s, a.blue * s⟩

/-- `impl Mul for Color` (Hadamard product). -/
def Color.mul (a b : Color) : Color := ⟨a.red * b.red, a.green * b.green, a.blue * b.blue⟩

/-! ## point_light.rs -/

/-- A point light: position and intensity (`point_light.rs`). -/
structure PointLight where
  position : Tuple
  intensity : Color
  deriving DecidableEq

/-! ## matrix.rs -/

/-- A width-tagged row-major matrix (`matrix.rs`). The `det: RefCell<Option<f64>>`
cache is an optimization with no observable effect and is not modelled. -/
structure Matrix where
  width : ℕ
  value : List ℚ
  deriving DecidableEq

/-- `Matrix::height`. -/
def Matrix.height (m : Matrix) : ℕ := m.value.length / m.width

/-- `impl Index<(usize, usize)> for Matrix` (row-major). -/
def Matrix.get (m : Matrix) (y x : ℕ) : ℚ := m.value.getD (y * m.width + x) 0

/-- `impl IndexMut` assignment `m[(y, x)] = v`. -/
def Matrix.set (m : Matrix) (y x : ℕ) (v : ℚ) : Matrix :=
  ⟨m.width, m.value.set (y * m.width + x) v⟩

/-- `Matrix::identity(dimension)`: zeros with ones on the diagonal (the source
builds it by setting the diagonal of a zero matrix in a loop). -/
def Matrix.identity (n : ℕ) : Matrix :=
  ⟨n, (List.range n).flatMap fun i => (List.range n).map fun j => if i = j then (1 : ℚ) else 0⟩

/-- `Matrix::row`. -/
def Matrix.row (m : Matrix) (r : ℕ) : List ℚ := (m.value.drop (r * m.width)).take m.width

/-- `Matrix::column` (every `width`-th element starting at `c`). -/
def Matrix.column (m : Matrix) (c : ℕ) : List ℚ :=
  (List.range m.height).map fun r => m.get r c

/-- `Matrix::transpose`: the concatenation of the columns. -/
def Matrix.transpose (m : Matrix) : Matrix :=
  ⟨m.height, (List.range m.width).flatMap fun c => m.column c⟩

/-- `impl Mul for &Matrix`: entry (r, c) is the dot product of row r of the
left factor with column c of the right factor. -/
def Matrix.mul (m1 m2 : Matrix) : Matrix :=
  ⟨m1.width,
    (List.range m1.height).flatMap fun r =>
      (List.range m1.width).map fun c =>
        (((m1.row r).zip (m2.column c)).map fun p => p.1 * p.2).sum⟩

/-- `impl Mul<Tuple> for &Matrix` (rows dotted with the tuple; the source
asserts the matrix is 4×4). -/
def Matrix.mulTuple (m : Matrix) (t : Tuple) : Tuple :=
  ⟨(Tuple.mk (m.get 0 0) (m.get 0 1) (m.get 0 2) (m.get 0 3)).dot t,
   (Tuple.mk (m.get 1 0) (m.get 1 1) (m.get 1 2) (m.get 1 3)).dot t,
   (Tuple.mk (m.get 2 0) (m.get 2 1) (m.get 2 2) (m.get 2 3)).dot t,
   (Tuple.mk (m.get 3 0) (m.get 3 1) (m.get 3 2) (m.get 3 3)).dot t⟩

/-- `Matrix::sub_matrix(row, column)`: drop one row and one column. The source
writes entry `self[(y, x)]` to target position `(y - [y > row], x - [x > column])`;
equivalently target `(ty, tx)` reads source `(ty + [ty ≥ row], tx + [tx ≥ column])`. -/
def Matrix.sub_matrix (m : Matrix) (row col : ℕ) : Matrix :=
  ⟨m.width - 1,
    (List.range (m.height - 1)).flatMap fun ty =>
      (List.range (m.width - 1)).map fun tx =>
        m.get (if ty < row then ty else ty + 1) (if tx < col then tx else tx + 1)⟩

/-- `Matrix::determinate`, with an explicit structural fuel so that the kernel
can evaluate it. The fuel is the matrix width: `sub_matrix` has width exactly
one less, and the width-0 case is the source's empty cofactor sum. -/
def Matrix.determinateFuel : ℕ → Matrix → ℚ
  | 0, _ => 0
  | fuel + 1, m =>
    if m.width = 2 ∨ m.height = 2 then
      m.get 0 0 * m.get 1 1 - m.get 0 1 * m.get 1 0
    else
      ((List.range m.width).map fun c =>
        m.get 0 c *
          (if (0 + c) % 2 = 0 then Matrix.determinateFuel fuel (m.sub_matrix 0 c)
           else -1 * Matrix.determinateFuel fuel (m.sub_matrix 0 c))).sum

/-- `Matrix::determinate` (the recursion in the source is on the matrix; its
depth is the width, which is the fuel supplied here). -/
def Matrix.determinate (m : Matrix) : ℚ := Matrix.determinateFuel m.width m

/-- `Matrix::minor`. -/
def Matrix.minor (m : Matrix) (row col : ℕ) : ℚ := (m.sub_matrix row col).determinate

/-- `Matrix::cofactor`. -/
def Matrix.cofactor (m : Matrix) (row col : ℕ) : ℚ :=
  if (row + col) % 2 = 0 then m.minor row col else -1 * m.minor row col

/-- `Matrix::is_invertible`: determinant not `eq_f64`-equal to zero. -/
def Matrix.is_invertible (m : Matrix) : Bool := !(eqF64 0 m.determinate)

/-- `Matrix::inverse`: `None` when not invertible, otherwise the transposed
cofactor matrix divided by the determinant (the source writes
`inv[(col, row)] = cofactor(row, col) / det`). -/
def Matrix.inverse (m : Matrix) : Option Matrix :=
  if m.is_invertible then
    some ⟨m.width,
      (List.range m.height).flatMap fun y =>
        (List.range m.width).map fun x => m.cofactor x y / m.determinate⟩
  else
    none

/-! ## transformation.rs -/

/-- A `Transformation` wraps a 4×4 matrix (`transformation.rs`). -/
structure Transformation where
  matrix : Matrix
  deriving DecidableEq

/-- `Transformation::identity`. -/
def Transformation.identity : Transformation := ⟨Matrix.identity 4⟩

/-- `Transformation::inverse`. -/
def Transformation.inverse (t : Transformation) : Option Transformation :=
  t.matrix.inverse.map Transformation.mk

/-- The translation generator matrix (identity with the last column set). -/
def translationMatrix (x y z : ℚ) : Matrix :=
  (((Matrix.identity 4).set 0 3 x).set 1 3 y).set 2 3 z

/-- `Transformation::translation`: pre-multiplies the generator onto the
accumulated matrix. -/
def Transformation.translation (t : Transformation) (x y z : ℚ) : Transformation :=
  ⟨(translationMatrix x y z).mul t.matrix⟩

/-- The scaling generator matrix (identity with the diagonal set). -/
def scaleMatrix (x y z : ℚ) : Matrix :=
  (((Matrix.identity 4).set 0 0 x).set 1 1 y).set 2 2 z

/-- `Transformation::scale`: pre-multiplies the generator. -/
def Transformation.scale (t : Transformation) (x y z : ℚ) : Transformation :=
  ⟨(scaleMatrix x y z).mul t.matrix⟩

/-- The x-rotation generator matrix; `c` and `s` stand for the values
`radians.cos()` and `radians.sin()` computed by the source. -/
def rotateXMatrix (c s : ℚ) : Matrix :=
  (((((Matrix.identity 4).set 1 1 c).set 2 2 c).set 1 2 (-s)).set 2 1 s)

/-- `Transformation::rotate_x`: pre-multiplies the generator. -/
def Transformation.rotate_x (t : Transformation) (c s : ℚ) : Transformation :=
  ⟨(rotateXMatrix c s).mul t.matrix⟩

/-- `impl Mul<Tuple> for &Transformation`. -/
def Transformation.mulTuple (t : Transformation) (p : Tuple) : Tuple :=
  t.matrix.mulTuple p

/-! ## Claim theorems for the numeric layer -/

/-- C5: `eq_f64(a, b)` returns true exactly when |a - b| < 1e-5 (both finite),
or both arguments are +infinity, or both are -infinity; in particular
+infinity compares equal to itself and not to -infinity. -/
theorem eq_f64_characterization :
    (∀ a b : F64, eq_f64 a b = true ↔
      ((∃ qa qb, a = .finite qa ∧ b = .finite qb ∧ |qa - qb| < EPSILON) ∨
        (a = .posInf ∧ b = .posInf) ∨ (a = .negInf ∧ b = .negInf))) ∧
    eq_f64 .posInf .posInf = true ∧ eq_f64 .posInf .negInf = false := by
  refine ⟨fun a b => ?_, rfl, rfl⟩
  cases a <;> cases b <;> simp [eq_f64, F64.sub, F64.abs, F64.lt]

/-- C6: the builder chain `identity().scale(sx,sy,sz).rotate_x(r).translation(tx,ty,tz)`
equals the matrix product `translation * rotate_x * scale` (each builder call
pre-multiplies its generator onto the accumulated matrix), so for every point
`p` the scale — the first operation listed — is applied to `p` first. Here
`c`/`s` stand for `r.cos()`/`r.sin()` as computed by `rotate_x`. -/
theorem transformation_composition_order (sx sy sz c s tx ty tz : ℚ) :
    ((Transformation.identity.scale sx sy sz).rotate_x c s).translation tx ty tz
        = ⟨((translationMatrix tx ty tz).mul (rotateXMatrix c s)).mul (scaleMatrix sx sy sz)⟩ ∧
      ∀ p : Tuple,
        (((Transformation.identity.scale sx sy sz).rotate_x c s).translation tx ty tz).mulTuple p
          = (translationMatrix tx ty tz).mulTuple ((rotateXMatrix c s).mulTuple
              ((scaleMatrix sx sy sz).mulTuple p)) := by
  constructor
  · simp [Transformation.translation, Transformation.scale, Transformation.rotate_x,
      Transformation.identity, Matrix.mul, translationMatrix, scaleMatrix, rotateXMatrix,
      Matrix.identity, Matrix.set, Matrix.height, Matrix.row, Matrix.column, Matrix.get,
      List.range_succ]
  · intro p
    simp [Transformation.translation, Transformation.scale, Transformation.rotate_x,
      Transformation.identity, Transformation.mulTuple, Matrix.mulTuple, Tuple.dot, Matrix.mul,
      translationMatrix, scaleMatrix, rotateXMatrix,
      Matrix.identity, Matrix.set, Matrix.height, Matrix.row, Matrix.column, Matrix.get,
      List.range_succ]
    ring_nf
    exact ⟨trivial, trivial⟩

/-! ## intersection/ray.rs -/

/-- A ray: origin and direction (`intersection/ray.rs`). -/
structure Ray where
  origin : Tuple
  direction : Tuple
  deriving DecidableEq

/-- `Ray::new`: stores the two tuples unchecked (the source performs no
validation of the `w` components). -/
def Ray.new (origin direction : Tuple) : Ray := ⟨origin, direction⟩

/-- `Ray::position`. -/
def Ray.position (r : Ray) (t : ℚ) : Tuple := r.origin.add (r.direction.smul t)

/-- `impl Mul<Ray> for Transformation`. -/
def Transformation.mulRay (t : Transformation) (r : Ray) : Ray :=
  ⟨t.mulTuple r.origin, t.mulTuple r.direction⟩

/-! ## intersection/mod.rs: Intersection -/

/-- An intersection record: `t` and the id of the primitive hit
(`intersection/mod.rs`). -/
structure Intersection where
  t : ℚ
  object : ℕ
  deriving DecidableEq

instance : Inhabited Intersection := ⟨⟨0, 0⟩⟩

/-- The comparison both `Ord for Intersection` and `Ord for ShapeIntersection`
implement on the `t` values: `Equal` under `eq_f64`, otherwise deliberately
reversed — `Greater` when the left `t` is smaller. -/
def cmpT (t1 t2 : ℚ) : Ordering :=
  if eqF64 t1 t2 then .eq else if t1 < t2 then .gt else .lt

/-! ## shape/material: Pattern and Material -/

/-- A `dyn Pattern` trait object: its `color_at` and `transformation`
methods (`shape/material/pattern/mod.rs`). -/
structure Pattern where
  color_at : Tuple → Color
  transformation : Transformation

/-- `SolidPattern`: constant color, identity transformation. -/
def SolidPattern (c : Color) : Pattern := ⟨fun _ => c, Transformation.identity⟩

/-- A Phong material (`shape/material/mod.rs`). -/
structure Material where
  ambient : ℚ
  diffuse : ℚ
  specular : ℚ
  shininess : ℚ
  reflective : ℚ
  transparency : ℚ
  refractive_index : ℚ
  pattern : Pattern

/-- `impl Default for Material`: solid white pattern, ambient 0.1,
diffuse 0.9, specular 0.9, shininess 200, reflective 0, transparency 0,
refractive index 1. -/
def Material.default : Material :=
  ⟨1/10, 9/10, 9/10, 200, 0, 0, 1, SolidPattern Color.white⟩

/-- `impl PartialEq for Material`: the source compares exactly the four
fields ambient, diffuse, specular and shininess with `eq_f64`. -/
def Material.eqB (a b : Material) : Bool :=
  eqF64 a.ambient b.ambient && eqF64 a.diffuse b.diffuse &&
    eqF64 a.specular b.specular && eqF64 a.shininess b.shininess

/-! ## shape/mod.rs: the Shape trait -/

/-- A `ShapeContainer` holding a `dyn Shape` trait object, modelled as the
record of its trait methods together with the chain of transformations of its
ancestor groups (the `parent` weak reference, assumed alive, is only ever
used to apply the ancestors' `world_to_object` / `normal_to_world`, which
consult exactly their transformations). -/
structure ShapeC where
  id : ℕ
  transformation : Transformation
  materialF : ℕ → Option Material
  localIntersect : Ray → List Intersection
  localNormalAt : ℕ → Tuple → Option Tuple
  contains : ℕ → Bool
  parentChain : List Transformation

instance : Inhabited ShapeC :=
  ⟨⟨0, Transformation.identity, fun _ => none, fun _ => [], fun _ _ => none, fun _ => false, []⟩⟩

/-- `Shape::intersects` (default trait method): transform the ray by the
shape's inverse transform — the source calls `.unwrap()` on the inverse, so a
non-invertible transform panics (`none`) — then run `local_intersect`. -/
def ShapeC.intersects (s : ShapeC) (r : Ray) : Option (List Intersection) :=
  (s.transformation.inverse).map fun inv => s.localIntersect (inv.mulRay r)

/-- The ancestor part of `Shape::world_to_object`: the root-most ancestor's
inverse is applied first. Each `.expect`-ed inverse panics (`none`) when the
transform is not invertible. -/
def chainWorldToObject : List Transformation → Tuple → Option Tuple
  | [], p => some p
  | t :: rest, p =>
    (chainWorldToObject rest p).bind fun q => (t.inverse).map fun inv => inv.mulTuple q

/-- `Shape::world_to_object`: recurse through the parent chain, then apply the
shape's own inverse transform (`.expect` panic modelled as `none`). -/
def ShapeC.world_to_object (s : ShapeC) (p : Tuple) : Option Tuple :=
  (chainWorldToObject s.parentChain p).bind fun q =>
    (s.transformation.inverse).map fun inv => inv.mulTuple q

/-- `Transformation::transpose`. -/
def Transformation.transpose (t : Transformation) : Transformation := ⟨t.matrix.transpose⟩

/-- One step of `Shape::normal_to_world`: multiply by the transposed inverse,
force w to 0, normalize. -/
def normalToWorldStep (prims : Prims) (t : Transformation) (n : Tuple) : Option Tuple :=
  (t.inverse).map fun inv => ((inv.transpose.mulTuple n).as_vector).normalize prims

/-- The ancestor part of `Shape::normal_to_world`: the shape's own step ran
first, then each ancestor from the immediate parent upward. -/
def chainNormalToWorld (prims : Prims) : List Transformation → Tuple → Option Tuple
  | [], n => some n
  | t :: rest, n => (normalToWorldStep prims t n).bind (chainNormalToWorld prims rest)

/-- `Shape::normal_to_world`. -/
def ShapeC.normal_to_world (prims : Prims) (s : ShapeC) (n : Tuple) : Option Tuple :=
  (normalToWorldStep prims s.transformation n).bind (chainNormalToWorld prims s.parentChain)

/-- `Shape::normal_at`: world point to local space, local normal, back to
world space. -/
def ShapeC.normal_at (prims : Prims) (s : ShapeC) (id : ℕ) (point : Tuple) : Option Tuple :=
  (s.world_to_object point).bind fun localPoint =>
    (s.localNormalAt id localPoint).bind fun localNormal =>
      s.normal_to_world prims localNormal

/-! ## shape/sphere.rs -/

/-- The data of a `Sphere` (`shape/sphere.rs`). -/
structure Sphere where
  id : ℕ
  center : Tuple
  transformation : Transformation
  material : Material

/-- `Sphere::local_intersect`: solve the quadratic; empty when the
discriminant is negative, otherwise the two roots `(-b ∓ √disc) / 2a`. -/
def Sphere.local_intersect (prims : Prims) (s : Sphere) (ray : Ray) : List Intersection :=
  let sphere_to_ray := ray.origin.sub s.center
  let a := ray.direction.dot ray.direction
  let b := (ray.direction.dot sphere_to_ray) * 2
  let c := sphere_to_ray.dot sphere_to_ray - 1
  let discriminant := prims.powf b 2 - 4 * a * c
  if discriminant < 0 then
    []
  else
    [⟨(-b - prims.sqrt discriminant) / (2 * a), s.id⟩,
     ⟨(-b + prims.sqrt discriminant) / (2 * a), s.id⟩]

/-- The `dyn Shape` vtable of a sphere: `material(id)`/`local_normal_at(id, p)`
answer only for the sphere's own id; the local normal is `point - origin`. -/
def Sphere.toShape (prims : Prims) (s : Sphere) : ShapeC :=
  ⟨s.id, s.transformation,
   fun id => if s.id = id then some s.material else none,
   fun r => s.local_intersect prims r,
   fun id p => if id = s.id then some (p.sub Tuple.origin) else none,
   fun id => s.id = id,
   []⟩

/-! ## Claim theorems: materials, rays, spheres -/

/-- C7 counterexample: two materials identical except for `reflective`
(0 versus 1, not epsilon-equal) — and also carrying different patterns —
compare equal, because `PartialEq for Material` only consults ambient,
diffuse, specular and shininess. The claim that equality requires all seven
scalar fields to be epsilon-equal is therefore false. -/
theorem material_eq_ignores_reflective :
    Material.eqB Material.default
        { Material.default with
            reflective := 1, transparency := 1, refractive_index := 3/2,
            pattern := SolidPattern ⟨1, 0, 0⟩ } = true ∧
      eqF64 (Material.default).reflective 1 = false := by
  constructor <;> norm_num [Material.eqB, Material.default, eqF64, EPSILON]

/-- C7 amended: two materials compare equal exactly when ambient, diffuse,
specular and shininess are epsilon-equal; reflective, transparency,
refractive-index and the pattern do not participate, so materials differing
only in those (in particular only in pattern) compare equal. -/
theorem material_eq_characterization :
    (∀ a b : Material, Material.eqB a b = true ↔
      (eqF64 a.ambient b.ambient = true ∧ eqF64 a.diffuse b.diffuse = true ∧
        eqF64 a.specular b.specular = true ∧ eqF64 a.shininess b.shininess = true)) ∧
    ∀ m : Material, ∀ p : Pattern, Material.eqB m { m with pattern := p } = true := by
  constructor
  · intro a b
    simp [Material.eqB, and_assoc]
  · intro m p
    simp [Material.eqB, eqF64, EPSILON]

/-- C8: `Ray::new` accepts every pair of tuples unchecked; here with an origin
that is not a point (w = 0) and a direction that is not a vector (w = 1), the
ray is constructed — no error is produced (the `RayTraceError::RayCreationError`
variant of `error.rs` is never constructed anywhere in the codebase), so the
claimed rejection at construction time does not happen. -/
theorem ray_new_accepts_non_point_origin :
    Ray.new (Tuple.vector 1 2 3) (Tuple.point 4 5 6)
        = ⟨Tuple.vector 1 2 3, Tuple.point 4 5 6⟩ ∧
      (Tuple.vector 1 2 3).is_point = false ∧ (Tuple.point 4 5 6).is_vector = false := by
  refine ⟨rfl, by decide, by decide⟩

/-- C10: `Sphere::local_intersect` returns either an empty list (exactly when
the discriminant is negative) or exactly two records — never one; and when
the discriminant is zero (tangent ray) the two records carry the same `t`
(using that the `sqrt` primitive satisfies `sqrt 0 = 0`). -/
theorem sphere_local_intersect_count (prims : Prims) (s : Sphere) (ray : Ray) :
    ((Sphere.local_intersect prims s ray).length = 0 ∨
      (Sphere.local_intersect prims s ray).length = 2) ∧
    (Sphere.local_intersect prims s ray).length ≠ 1 ∧
    ((Sphere.local_intersect prims s ray).length = 0 ↔
      prims.powf ((ray.direction.dot (ray.origin.sub s.center)) * 2) 2 -
        4 * (ray.direction.dot ray.direction) *
          ((ray.origin.sub s.center).dot (ray.origin.sub s.center) - 1) < 0) ∧
    (prims.sqrt 0 = 0 →
      prims.powf ((ray.direction.dot (ray.origin.sub s.center)) * 2) 2 -
          4 * (ray.direction.dot ray.direction) *
            ((ray.origin.sub s.center).dot (ray.origin.sub s.center) - 1) = 0 →
      ∃ t0, Sphere.local_intersect prims s ray = [⟨t0, s.id⟩, ⟨t0, s.id⟩]) := by
  unfold Sphere.local_intersect
  by_cases h : prims.powf ((ray.direction.dot (ray.origin.sub s.center)) * 2) 2 -
      4 * (ray.direction.dot ray.direction) *
        ((ray.origin.sub s.center).dot (ray.origin.sub s.center) - 1) < 0
  · simp [h]
    exact fun _ hd => absurd hd (ne_of_lt h)
  · simp [h]
    intro hsq hdisc
    rw [hdisc, hsq]
    ring

/-- C10 witness: the canonical tangent ray (origin (0, 1, -5), direction
(0, 0, 1)) against the unit sphere at the origin has discriminant 0, and the
intersection list is `[5, 5]` at the sphere's id, instantiating the sqrt
primitive with the zero function. -/
theorem sphere_local_intersect_count_witness :
    ∃ t0, Sphere.local_intersect ⟨fun _ => 0, fun b _ => b * b⟩
        ⟨7, Tuple.origin, Transformation.identity, Material.default⟩
        ⟨Tuple.point 0 1 (-5), Tuple.vector 0 0 1⟩ = [⟨t0, 7⟩, ⟨t0, 7⟩] := by
  exact (sphere_local_intersect_count ⟨fun _ => 0, fun b _ => b * b⟩
    ⟨7, Tuple.origin, Transformation.identity, Material.default⟩
    ⟨Tuple.point 0 1 (-5), Tuple.vector 0 0 1⟩).2.2.2 rfl
    (by norm_num [Tuple.point, Tuple.vector, Tuple.origin, Tuple.sub, Tuple.dot])

/-! ## camera.rs -/

/-- The camera data (`camera.rs`); `Camera::new` derives `half_width`,
`half_height` and `pixel_size` using `tan`, which is transcendental, so the
embedding works with the stored fields directly. -/
structure Camera where
  h_size : ℚ
  v_size : ℚ
  transform : Transformation
  half_width : ℚ
  half_height : ℚ
  pixel_size : ℚ

/-- `Camera::ray_for_pixel`: canvas offsets for the pixel center, world
coordinates, then both the canvas point and the origin are pushed through the
inverse camera transform — `.unwrap()`-ed in the source, so a non-invertible
camera transform panics (`none`). -/
def Camera.ray_for_pixel (prims : Prims) (c : Camera) (px py : ℕ) : Option Ray :=
  let x_offset := ((px : ℚ) + 1/2) * c.pixel_size
  let y_offset := ((py : ℚ) + 1/2) * c.pixel_size
  let world_x := c.half_width - x_offset
  let world_y := c.half_height - y_offset
  (c.transform.inverse).map fun ti =>
    let pixel := ti.mulTuple (Tuple.point world_x world_y (-1))
    let origin := ti.mulTuple Tuple.origin
    Ray.new origin ((pixel.sub origin).normalize prims)

/-! ## Evaluation lemmas for concrete matrices -/

theorem identity_four_value :
    Matrix.identity 4 = ⟨4, [1,0,0,0, 0,1,0,0, 0,0,1,0, 0,0,0,1]⟩ := by
  simp [Matrix.identity, List.range_succ]

set_option maxHeartbeats 1000000 in
theorem determinate_mk4 (p0 p1 p2 p3 p4 p5 p6 p7 p8 p9 p10 p11 p12 p13 p14 p15 : ℚ) :
    Matrix.determinate ⟨4, [p0,p1,p2,p3,p4,p5,p6,p7,p8,p9,p10,p11,p12,p13,p14,p15]⟩
      = p0 * (p5 * (p10 * p15 - p11 * p14) - p6 * (p9 * p15 - p11 * p13)
            + p7 * (p9 * p14 - p10 * p13))
      - p1 * (p4 * (p10 * p15 - p11 * p14) - p6 * (p8 * p15 - p11 * p12)
            + p7 * (p8 * p14 - p10 * p12))
      + p2 * (p4 * (p9 * p15 - p11 * p13) - p5 * (p8 * p15 - p11 * p12)
            + p7 * (p8 * p13 - p9 * p12))
      - p3 * (p4 * (p9 * p14 - p10 * p13) - p5 * (p8 * p14 - p10 * p12)
            + p6 * (p8 * p13 - p9 * p12)) := by
  show Matrix.determinateFuel 4 _ = _
  simp [Matrix.determinateFuel, Matrix.sub_matrix, Matrix.get, Matrix.height, List.range_succ]
  ring

theorem inverse_eq_none_iff (m : Matrix) :
    m.inverse = none ↔ eqF64 0 m.determinate = true := by
  by_cases h : m.is_invertible
  · simp [Matrix.inverse, h]
    simpa [Matrix.is_invertible] using h
  · simp [Matrix.inverse, h]
    simpa [Matrix.is_invertible] using h

theorem transformation_inverse_eq_none_iff (t : Transformation) :
    t.inverse = none ↔ eqF64 0 t.matrix.determinate = true := by
  rw [← inverse_eq_none_iff]
  cases h : t.matrix.inverse <;> simp [Transformation.inverse, h]

/-- The identity transformation is invertible (its determinant is 1). -/
theorem identity_inverse_isSome : ∃ ti, Transformation.identity.inverse = some ti := by
  have h : eqF64 0 (Matrix.identity 4).determinate = false := by
    rw [identity_four_value, determinate_mk4]
    norm_num [eqF64, EPSILON]
  simp [Transformation.inverse, Transformation.identity, Matrix.inverse, Matrix.is_invertible, h]

/-- A degenerate (non-invertible) transform: scaling by (0, 0, 0). -/
def degenTransformation : Transformation := Transformation.identity.scale 0 0 0

/-- The degenerate transform's matrix is diag(0, 0, 0, 1). -/
theorem degenTransformation_matrix :
    degenTransformation.matrix = ⟨4, [0,0,0,0, 0,0,0,0, 0,0,0,0, 0,0,0,1]⟩ := by
  simp [degenTransformation, Transformation.scale, Transformation.identity, scaleMatrix,
    Matrix.mul, Matrix.identity, Matrix.set, Matrix.height, Matrix.row, Matrix.column,
    Matrix.get, List.range_succ]

/-- `inverse()` of the degenerate transform is `None` (determinant 0). -/
theorem degenTransformation_inverse : degenTransformation.inverse = none := by
  rw [transformation_inverse_eq_none_iff, degenTransformation_matrix, determinate_mk4]
  norm_num [eqF64, EPSILON]

/-! ## Claim theorems: degenerate transforms (C1) -/

/-- C1 counterexample: for a shape whose transform is the non-invertible
scale-by-zero, `Shape::intersects` does not surface a recoverable result —
it hits the `.unwrap()` panic (modelled as `none`, the program aborting);
likewise `normal_at` (through `world_to_object`'s `.expect`) and
`Camera::ray_for_pixel`. The claim that a degenerate transform propagates as
a recoverable None/error and never panics is therefore false. -/
theorem degenerate_transform_panics :
    ShapeC.intersects
        ⟨3, degenTransformation, fun _ => none, fun _ => [], fun _ _ => none, fun _ => false, []⟩
        (Ray.new Tuple.origin (Tuple.vector 0 0 1)) = none ∧
      ShapeC.normal_at ⟨fun _ => 0, fun _ _ => 0⟩
        ⟨3, degenTransformation, fun _ => none, fun _ => [], fun _ _ => none, fun _ => false, []⟩
        3 Tuple.origin = none ∧
      Camera.ray_for_pixel ⟨fun _ => 0, fun _ _ => 0⟩
        ⟨11, 11, degenTransformation, 1, 1, 2/11⟩ 5 5 = none := by
  refine ⟨?_, ?_, ?_⟩
  · simp [ShapeC.intersects, degenTransformation_inverse]
  · simp [ShapeC.normal_at, ShapeC.world_to_object, chainWorldToObject,
      degenTransformation_inverse]
  · simp [Camera.ray_for_pixel, degenTransformation_inverse]

/-- C1 amended: `inverse()` itself is recoverable — it returns `None` exactly
when the determinant is within epsilon of zero — but every consulting site
named by the claim (`Shape::intersects`, the world-to-local and normal
conversions of `normal_at`, and `Camera::ray_for_pixel`) unwraps/expects that
`Option`, so a non-invertible transform panics there (modelled `none`) for
every shape, ray and pixel instead of propagating an error; with an
invertible transform `intersects` proceeds with the inverse-transformed ray. -/
theorem inverse_consult_sites_unwrap :
    (∀ m : Matrix, m.inverse = none ↔ eqF64 0 m.determinate = true) ∧
    (∀ (s : ShapeC) (r : Ray), s.transformation.inverse = none → s.intersects r = none) ∧
    (∀ (s : ShapeC) (p : Tuple),
      s.transformation.inverse = none → s.world_to_object p = none) ∧
    (∀ (prims : Prims) (s : ShapeC) (n : Tuple),
      s.transformation.inverse = none → s.normal_to_world prims n = none) ∧
    (∀ (prims : Prims) (s : ShapeC) (id : ℕ) (p : Tuple),
      s.transformation.inverse = none → s.normal_at prims id p = none) ∧
    (∀ (prims : Prims) (c : Camera) (px py : ℕ),
      c.transform.inverse = none → c.ray_for_pixel prims px py = none) ∧
    (∀ (s : ShapeC) (r : Ray) (ti : Transformation),
      s.transformation.inverse = some ti →
        s.intersects r = some (s.localIntersect (ti.mulRay r))) := by
  refine ⟨inverse_eq_none_iff, ?_, ?_, ?_, ?_, ?_, ?_⟩
  · intro s r h
    simp [ShapeC.intersects, h]
  · intro s p h
    cases hc : chainWorldToObject s.parentChain p <;>
      simp [ShapeC.world_to_object, hc, h]
  · intro prims s n h
    simp [ShapeC.normal_to_world, normalToWorldStep, h]
  · intro prims s id p h
    cases hc : chainWorldToObject s.parentChain p <;>
      simp [ShapeC.normal_at, ShapeC.world_to_object, hc, h]
  · intro prims c px py h
    simp [Camera.ray_for_pixel, h]
  · intro s r ti h
    simp [ShapeC.intersects, h]

/-- C1 witness: the amended theorem applied to a concrete degenerate shape
and camera (scale-by-zero transform, determinant 0). -/
theorem inverse_consult_sites_unwrap_witness :
    ShapeC.intersects
        ⟨4, degenTransformation, fun _ => none, fun _ => [], fun _ _ => none, fun _ => false, []⟩
        (Ray.new (Tuple.point 0 0 (-5)) (Tuple.vector 0 0 1)) = none ∧
      Camera.ray_for_pixel ⟨fun _ => 1, fun _ _ => 1⟩
        ⟨201, 101, degenTransformation, 1, 1/2, 1/100⟩ 100 50 = none := by
  exact ⟨inverse_consult_sites_unwrap.2.1 _ _ degenTransformation_inverse,
    inverse_consult_sites_unwrap.2.2.2.2.2.1 _ _ 100 50 degenTransformation_inverse⟩

/-! ## The epsilon-tolerant reversed ordering and Rust's stable sort

Both `Ord for Intersection` and `Ord for ShapeIntersection` compare with
`cmpT` on the `t` values. Rust's `slice::sort` is a stable sort; it is
modelled by `List.insertionSort` with the non-strict relation "not Greater",
which is also stable (ties keep their original relative order). Every
theorem below either concerns two-element lists — where any stable sort is
forced to produce the same output — or lists whose keys are pairwise not
epsilon-equal, where the comparator is a strict total order and the sorted
permutation is unique, so the choice of stable sorting algorithm cannot be
observed. -/

section SortByKey

variable {α : Type} (key : α → ℚ)

/-- The `le` of the reversed epsilon ordering: `cmp` is not `Greater`. -/
def rLe (a b : α) : Prop := cmpT (key a) (key b) ≠ Ordering.gt

instance : DecidableRel (rLe key) := fun a b => by unfold rLe; infer_instance

/-- `slice::sort` under the reversed `Ord` (stable, "ascending" by `cmp`,
hence descending by `t` up to epsilon ties). -/
def sortByOrd (l : List α) : List α := l.insertionSort (rLe key)

theorem eqF64_symm (a b : ℚ) : eqF64 a b = eqF64 b a := by
  simp [eqF64, abs_sub_comm]

theorem rLe_total (a b : α) : rLe key a b ∨ rLe key b a := by
  unfold rLe cmpT
  by_cases he : eqF64 (key a) (key b) = true
  · left
    simp [he]
  · have he' : ¬eqF64 (key b) (key a) = true := by
      rw [eqF64_symm]
      exact he
    by_cases hlt : key a < key b
    · right
      simp [he', not_lt.mpr (le_of_lt hlt)]
    · left
      simp [he, hlt]

theorem chain'_orderedInsert (a : α) :
    ∀ l : List α, l.Chain' (rLe key) → (l.orderedInsert (rLe key) a).Chain' (rLe key) := by
  intro l
  induction l with
  | nil => intro _; simp [List.orderedInsert]
  | cons b l ih =>
    intro hchain
    rw [List.orderedInsert]
    by_cases hab : rLe key a b
    · simp only [if_pos hab]
      exact List.Chain'.cons hab hchain
    · simp only [if_neg hab]
      have hba : rLe key b a := (rLe_total key a b).resolve_left hab
      have htail := ih hchain.tail
      cases l with
      | nil => simpa [List.orderedInsert] using hba
      | cons c l' =>
        rw [List.orderedInsert] at htail ⊢
        by_cases hac : rLe key a c
        · simp only [if_pos hac] at htail ⊢
          exact List.Chain'.cons hba htail
        · simp only [if_neg hac] at htail ⊢
          exact List.Chain'.cons (List.chain'_cons.mp hchain).1 htail

theorem chain'_sortByOrd (l : List α) : (sortByOrd key l).Chain' (rLe key) := by
  induction l with
  | nil => simp [sortByOrd, List.insertionSort]
  | cons b l ih => exact chain'_orderedInsert key b _ ih

theorem sortByOrd_perm (l : List α) : List.Perm (sortByOrd key l) l :=
  List.perm_insertionSort _ l

/-- Keys pairwise at least epsilon apart. -/
def KeysApart (l : List α) : Prop :=
  l.Pairwise fun a b => eqF64 (key a) (key b) = false

theorem rLe_strict {a b : α} (h : rLe key a b) (hne : eqF64 (key a) (key b) = false) :
    key b < key a := by
  unfold rLe cmpT at h
  rw [hne] at h
  by_cases hlt : key a < key b
  · simp [hlt] at h
  · have hkk : key a ≠ key b := by
      intro hk
      rw [hk] at hne
      simp [eqF64, EPSILON] at hne
    push_neg at hlt
    exact lt_of_le_of_ne hlt fun hk => hkk hk.symm

/-- Under pairwise-distinct keys, the code's sort is strictly descending by
key, so its reverse — the ascending enumeration — is strictly ascending. -/
theorem sortByOrd_pairwise_gt (l : List α) (hd : KeysApart key l) :
    (sortByOrd key l).Pairwise fun a b => key b < key a := by
  have hd' : KeysApart key (sortByOrd key l) := by
    unfold KeysApart
    rw [List.Perm.pairwise_iff (fun h => by rw [eqF64_symm] at h; exact h) (sortByOrd_perm key l)]
    exact hd
  have hch := chain'_sortByOrd key l
  have hchPD : (sortByOrd key l).Chain' fun a b => eqF64 (key a) (key b) = false :=
    hd'.chain'
  have hstrict : (sortByOrd key l).Chain' fun a b => key b < key a := by
    rw [List.chain'_iff_get] at hch hchPD ⊢
    intro i hi
    exact rLe_strict key (hch i hi) (hchPD i hi)
  haveI : IsTrans α fun a b => key b < key a := ⟨fun _ _ _ h1 h2 => lt_trans h2 h1⟩
  exact List.chain'_iff_pairwise.mp hstrict

end SortByKey

/-! ## intersection/mod.rs: ShapeIntersection and IntersectionHeap -/

/-- A `ShapeIntersection`: `t`, the `ShapeContainer` hit, and the id of the
primitive within it (`intersection/mod.rs`). -/
structure ShapeIntersection where
  t : ℚ
  object : ShapeC
  object_id : ℕ

instance : Inhabited ShapeIntersection := ⟨⟨0, default, 0⟩⟩

/-- `impl PartialEq for ShapeIntersection`: same container id and
`eq_f64`-equal `t`. -/
def ShapeIntersection.eqB (a b : ShapeIntersection) : Bool :=
  (a.object.id == b.object.id) && eqF64 a.t b.t

/-- The backing vector of the `BinaryHeap<ShapeIntersection>` in push order.
`BinaryHeap::push` appends and then sifts up, swapping only while the new
element is strictly greater than its parent under the reversed epsilon `Ord`;
the permutation it applies is unobservable here, because `Index` re-sorts the
iterated elements on every access (see the modelling note above; for the
epsilon-tie counterexample the two elements compare `Equal`, so `sift_up`
performs no swap and the backing vector is exactly the push order). -/
abbrev IntersectionHeap : Type := List ShapeIntersection

/-- `IntersectionHeap::new`. -/
def IntersectionHeap.new : IntersectionHeap := []

/-- `IntersectionHeap::push`. -/
def IntersectionHeap.push (h : IntersectionHeap) (i : ShapeIntersection) : IntersectionHeap :=
  h ++ [i]

/-- `IntersectionHeap::len`. -/
def IntersectionHeap.len (h : IntersectionHeap) : ℕ := h.length

/-- The sorted vector built by `impl Index for IntersectionHeap`:
`iter().collect::<Vec<_>>()` then `sort()` (ascending by the reversed `Ord`,
i.e. descending by `t` up to epsilon ties). -/
def IntersectionHeap.sortedVec (h : IntersectionHeap) : List ShapeIntersection :=
  sortByOrd ShapeIntersection.t h

/-- `impl Index for IntersectionHeap`: `intersections[len - 1 - index]` of the
sorted vector (out-of-range access panics in Rust; the default value here is
never consulted by the theorems, which stay in bounds as `hit` does). -/
def IntersectionHeap.index (h : IntersectionHeap) (i : ℕ) : ShapeIntersection :=
  (h.sortedVec).getD (h.len - 1 - i) default

/-- `IntersectionHeap::hit`: scan `self[0], self[1], …` and return the first
intersection whose `t` is sign-positive (`0 ≤ t` on exact rationals; the
IEEE `-0.0` has no rational counterpart). -/
def IntersectionHeap.hit (h : IntersectionHeap) : Option ShapeIntersection :=
  ((List.range h.len).map h.index).find? fun i => decide (0 ≤ i.t)

/-- The ascending enumeration `self[0], self[1], …` is the reverse of the
sorted vector. -/
theorem IntersectionHeap.enum_eq_reverse (h : IntersectionHeap) :
    (List.range h.len).map h.index = h.sortedVec.reverse := by
  have hlen : h.sortedVec.length = h.len :=
    (sortByOrd_perm ShapeIntersection.t (h : List ShapeIntersection)).length_eq
  apply List.ext_getElem
  · simp [hlen]
  · intro i hi hi'
    have hi2 : i < h.len := by simpa using hi
    have hi3 : h.len - 1 - i < h.sortedVec.length := by
      rw [hlen]; omega
    simp only [List.getElem_map, List.getElem_range, List.getElem_reverse, hlen]
    rw [IntersectionHeap.index, List.getD_eq_getElem _ _ hi3]

/-- The first element of an ascending-by-`t` list that `find?` accepts is
minimal among the accepted elements. -/
theorem find?_nonneg_min {l : List ShapeIntersection}
    (hs : l.Pairwise fun a b => a.t < b.t) {si : ShapeIntersection}
    (h : l.find? (fun x => decide (0 ≤ x.t)) = some si) :
    ∀ x ∈ l, 0 ≤ x.t → si.t ≤ x.t := by
  induction l with
  | nil => simp at h
  | cons a l ih =>
    rw [List.find?_cons] at h
    by_cases ha : (0:ℚ) ≤ a.t
    · simp only [decide_eq_true ha] at h
      cases h
      intro x hx hxt
      rcases List.mem_cons.mp hx with rfl | hxl
      · exact le_refl _
      · exact le_of_lt ((List.rel_of_pairwise_cons hs) hxl)
    · simp only [decide_eq_false ha] at h
      intro x hx hxt
      rcases List.mem_cons.mp hx with rfl | hxl
      · exact absurd hxt ha
      · exact ih hs.of_cons h x hxl hxt

/-- C2 amended: provided no two intersections in the heap have `t` values
within epsilon (1e-5) of each other, indexing enumerates them in strictly
ascending order of `t`, and `hit()` returns the intersection with the
smallest non-negative `t`; `hit()` returns none exactly when every
intersection has negative `t`. (With epsilon-close `t` values the reversed
`Ord` compares them `Equal` and the enumeration can be out of order — see the
counterexample.) The heap is quantified as the backing vector in an
arbitrary order, covering every push order. -/
theorem heap_index_ascending_hit_minimal (h : IntersectionHeap)
    (hd : KeysApart ShapeIntersection.t h) :
    (∀ i j, i < h.len → j < h.len → i < j →
      (IntersectionHeap.index h i).t < (IntersectionHeap.index h j).t) ∧
    (IntersectionHeap.hit h = none ↔ ∀ si ∈ h, si.t < 0) ∧
    (∀ si, IntersectionHeap.hit h = some si →
      si ∈ h ∧ 0 ≤ si.t ∧ ∀ x ∈ h, 0 ≤ x.t → si.t ≤ x.t) := by
  have hlen : h.sortedVec.length = h.len :=
    (sortByOrd_perm ShapeIntersection.t h).length_eq
  have hasc : h.sortedVec.reverse.Pairwise fun a b => a.t < b.t := by
    rw [List.pairwise_reverse]
    exact sortByOrd_pairwise_gt ShapeIntersection.t h hd
  have henum := IntersectionHeap.enum_eq_reverse h
  have hmem : ∀ x : ShapeIntersection, x ∈ h.sortedVec.reverse ↔ x ∈ h := by
    intro x
    rw [List.mem_reverse]
    exact (sortByOrd_perm ShapeIntersection.t h).mem_iff
  have hidx : ∀ i (hi : i < h.len), IntersectionHeap.index h i
      = h.sortedVec.reverse.getD i default := by
    intro i hi
    have h1 : ((List.range h.len).map h.index).getD i default
        = h.sortedVec.reverse.getD i default := by rw [henum]
    rwa [List.getD_eq_getElem _ _ (by simpa using hi), List.getElem_map,
      List.getElem_range] at h1
  refine ⟨?_, ?_, ?_⟩
  · intro i j hi hj hij
    have hi' : i < h.sortedVec.reverse.length := by simp [hlen, hi]
    have hj' : j < h.sortedVec.reverse.length := by simp [hlen, hj]
    rw [hidx i hi, hidx j hj, List.getD_eq_getElem _ _ hi', List.getD_eq_getElem _ _ hj']
    exact List.pairwise_iff_getElem.mp hasc i j hi' hj' hij
  · rw [IntersectionHeap.hit, henum, List.find?_eq_none]
    constructor
    · intro hall si hsi
      have := hall si ((hmem si).mpr hsi)
      simpa using this
    · intro hall x hx
      simp only [decide_eq_true_eq]
      exact not_le.mpr (hall x ((hmem x).mp hx))
  · intro si hsi
    rw [IntersectionHeap.hit, henum] at hsi
    refine ⟨(hmem si).mp (List.mem_of_find?_eq_some hsi), ?_, ?_⟩
    · simpa using List.find?_some hsi
    · intro x hx hxt
      exact find?_nonneg_min hasc hsi x ((hmem x).mpr hx) hxt

/-- C2 witness: a heap with the epsilon-separated `t` values 5, −3, 2: the
enumeration is ascending and `hit` is not none (2 is non-negative). -/
theorem heap_index_ascending_hit_minimal_witness :
    (IntersectionHeap.index [⟨5, default, 1⟩, ⟨-3, default, 2⟩, ⟨2, default, 3⟩] 0).t
        < (IntersectionHeap.index [⟨5, default, 1⟩, ⟨-3, default, 2⟩, ⟨2, default, 3⟩] 1).t ∧
      IntersectionHeap.hit [⟨5, default, 1⟩, ⟨-3, default, 2⟩, ⟨2, default, 3⟩] ≠ none := by
  have hd : KeysApart ShapeIntersection.t
      [⟨5, default, 1⟩, ⟨-3, default, 2⟩, ⟨2, default, 3⟩] := by
    norm_num [KeysApart, List.pairwise_cons, eqF64, EPSILON]
  refine ⟨(heap_index_ascending_hit_minimal _ hd).1 0 1 (by norm_num [IntersectionHeap.len])
    (by norm_num [IntersectionHeap.len]) (by norm_num), fun hn => ?_⟩
  have h5 := (heap_index_ascending_hit_minimal _ hd).2.1.mp hn
    ⟨5, default, 1⟩ (by simp)
  norm_num at h5

/-- The two-element heap exhibiting the epsilon tie: `t = 0` pushed first,
then `t = 0.000005` (within epsilon of each other, so the reversed `Ord`
compares them `Equal`; `BinaryHeap::push`'s sift-up does not swap equal
elements and the stable sort keeps their order). -/
def tieHeap : IntersectionHeap := [⟨0, default, 1⟩, ⟨1/200000, default, 2⟩]

/-- C2 counterexample: on `tieHeap` the enumeration is **descending** —
index 0 yields t = 0.000005 and index 1 yields t = 0 — and `hit()` returns
the intersection with t = 0.000005 although t = 0 is non-negative and
smaller; so indexing does not enumerate in ascending order of t and `hit()`
does not return the smallest non-negative t. -/
theorem heap_index_hit_eps_tie :
    (IntersectionHeap.index tieHeap 0).t = 1/200000 ∧
      (IntersectionHeap.index tieHeap 1).t = 0 ∧
      (IntersectionHeap.hit tieHeap).map ShapeIntersection.t = some (1/200000) ∧
      (IntersectionHeap.index tieHeap 1).t < (IntersectionHeap.index tieHeap 0).t ∧
      (0:ℚ) ≤ (IntersectionHeap.index tieHeap 1).t := by
  have hle : rLe ShapeIntersection.t (⟨0, default, 1⟩ : ShapeIntersection)
      ⟨1/200000, default, 2⟩ := by
    have habs : |(1:ℚ)/200000| = 1/200000 := abs_of_pos (by norm_num)
    norm_num [rLe, cmpT, eqF64, EPSILON]
    exact ⟨by rw [habs]; norm_num, by decide⟩
  have hs : IntersectionHeap.sortedVec tieHeap
      = [⟨0, default, 1⟩, ⟨1/200000, default, 2⟩] := by
    simp only [IntersectionHeap.sortedVec, tieHeap, sortByOrd, List.insertionSort,
      List.orderedInsert]
    rw [if_pos hle]
  have hlen2 : IntersectionHeap.len tieHeap = 2 := by simp [IntersectionHeap.len, tieHeap]
  have hi0 : IntersectionHeap.index tieHeap 0 = ⟨1/200000, default, 2⟩ := by
    rw [IntersectionHeap.index, hs, hlen2]
    rfl
  have hi1 : IntersectionHeap.index tieHeap 1 = ⟨0, default, 1⟩ := by
    rw [IntersectionHeap.index, hs, hlen2]
    rfl
  refine ⟨by rw [hi0], by rw [hi1], ?_, by rw [hi0, hi1]; norm_num, by rw [hi1]⟩
  have henum : (List.range (IntersectionHeap.len tieHeap)).map (IntersectionHeap.index tieHeap)
      = [⟨1/200000, default, 2⟩, ⟨0, default, 1⟩] := by
    have : IntersectionHeap.len tieHeap = 2 := by simp [IntersectionHeap.len, tieHeap]
    rw [this]
    simp [List.range_succ, hi0, hi1]
  rw [IntersectionHeap.hit, henum]
  norm_num [List.find?]

/-! ## shape/group.rs -/

/-- The CSG/group operation (`shape/group.rs`). -/
inductive Operation where
  | Difference
  | Intersection
  | Group
  | Union
  deriving DecidableEq

/-- `Operation::intersection_allowed`: the CSG truth table; the `Group` case
panics ("cannot determine intersections for non CSG"), modelled as `none`. -/
def Operation.intersection_allowed : Operation → Bool → Bool → Bool → Option Bool
  | .Union, lhit, inl, inr => some ((lhit && !inr) || (!lhit && !inl))
  | .Intersection, lhit, inl, inr => some ((lhit && inr) || (!lhit && inl))
  | .Difference, lhit, inl, inr => some ((lhit && !inr) || (!lhit && inl))
  | .Group, _, _, _ => none

/-- The data of a `Group` (`shape/group.rs`). The cached `BoundedBox` is
represented by its `intersects` test, the only way `local_intersect`
consults it. -/
structure GroupData where
  shapes : List ShapeC
  transformation : Transformation
  bounding_box : Ray → Bool
  operation : Operation

/-- `Group::left`: panics for a non-CSG group (and on a missing child),
modelled as `none`. -/
def GroupData.left (g : GroupData) : Option ShapeC :=
  if g.operation = Operation.Group then none else g.shapes.get? 0

/-- `Group::right`. -/
def GroupData.right (g : GroupData) : Option ShapeC :=
  if g.operation = Operation.Group then none else g.shapes.get? 1

/-- The loop body of `Group::filter_intersections`: walk the list with the
two inside flags, consult `intersection_allowed`, push when allowed, then
toggle the flag of the side the intersection belongs to. -/
def GroupData.filterGo (g : GroupData) :
    List Intersection → Bool → Bool → Option (List Intersection)
  | [], _, _ => some []
  | i :: rest, inl, inr =>
    (g.left).bind fun lc =>
      let lhit := lc.contains i.object
      (g.operation.intersection_allowed lhit inl inr).bind fun allowed =>
        (GroupData.filterGo g rest (if lhit then !inl else inl)
            (if lhit then inr else !inr)).map
          fun tail => if allowed then i :: tail else tail

/-- `Group::filter_intersections`: both flags start false. -/
def GroupData.filter_intersections (g : GroupData) (xs : List Intersection) :
    Option (List Intersection) :=
  GroupData.filterGo g xs false false

/-- The `flat_map` over the children in `Group::local_intersect`; each child's
`intersects` can panic (`none`) on a degenerate transform. -/
def collectChildren : List ShapeC → Ray → Option (List Intersection)
  | [], _ => some []
  | s :: rest, r =>
    (s.intersects r).bind fun is =>
      (collectChildren rest r).map fun tail => is ++ tail

/-- `Group::local_intersect`: bounding-box rejection, collect all children's
intersections, `sort()` (stable, by the reversed epsilon `Ord`) then
`reverse()`, and for a CSG group apply `filter_intersections`. -/
def GroupData.local_intersect (g : GroupData) (r : Ray) : Option (List Intersection) :=
  if g.bounding_box r = false then some []
  else
    (collectChildren g.shapes r).bind fun xs =>
      let sorted := (sortByOrd Intersection.t xs).reverse
      if g.operation = Operation.Group then some sorted
      else g.filter_intersections sorted

/-! ## The claim's CSG algorithm (spec-modelled, for the refinement proof) -/

/-- The truth table exactly as the claim words it, keyed on left-hit and
right-hit (in the walk, `right_hit = ¬left_hit`). -/
def csgClaimTable : Operation → Bool → Bool → Bool → Bool → Bool
  | .Union, lhit, rhit, inl, inr => (lhit && !inr) || (rhit && !inl)
  | .Intersection, lhit, rhit, inl, inr => (lhit && inr) || (rhit && inl)
  | .Difference, lhit, rhit, inl, inr => (lhit && !inr) || (rhit && inl)
  | .Group, _, _, _, _ => false

/-- The claim's walk: consult the truth table, retain when allowed, then
toggle the flag of the side the intersection belongs to. -/
def csgClaimWalk (op : Operation) (leftHas : ℕ → Bool) :
    List Intersection → Bool → Bool → List Intersection
  | [], _, _ => []
  | i :: rest, inl, inr =>
    let lhit := leftHas i.object
    let keep := csgClaimTable op lhit (!lhit) inl inr
    let tail := csgClaimWalk op leftHas rest (if lhit then !inl else inl)
      (if lhit then inr else !inr)
    if keep then i :: tail else tail

/-- The claim's algorithm: sort all collected intersections by ascending `t`,
then walk with both flags initially false. -/
def csgClaimAlgorithm (op : Operation) (leftHas : ℕ → Bool) (xs : List Intersection) :
    List Intersection :=
  csgClaimWalk op leftHas (xs.insertionSort fun a b => a.t ≤ b.t) false false

/-! ## C3 support lemmas -/

theorem intersection_allowed_eq_claimTable (op : Operation) (lhit inl inr : Bool)
    (hop : op ≠ Operation.Group) :
    op.intersection_allowed lhit inl inr = some (csgClaimTable op lhit (!lhit) inl inr) := by
  cases op <;> simp_all [Operation.intersection_allowed, csgClaimTable]

theorem filterGo_eq_claimWalk (g : GroupData) (lc : ShapeC)
    (hop : g.operation ≠ Operation.Group) (hleft : g.left = some lc) :
    ∀ (xs : List Intersection) (inl inr : Bool),
      g.filterGo xs inl inr = some (csgClaimWalk g.operation lc.contains xs inl inr) := by
  intro xs
  induction xs with
  | nil => intro inl inr; simp [GroupData.filterGo, csgClaimWalk]
  | cons i rest ih =>
    intro inl inr
    rw [GroupData.filterGo, csgClaimWalk, hleft, Option.some_bind]
    simp only [intersection_allowed_eq_claimTable _ _ _ _ hop, Option.some_bind, ih]
    simp

/-- The code's sort-then-reverse equals the claim's ascending sort whenever
the `t` keys are pairwise at least epsilon apart: both are permutations of
the input that are strictly ascending in `t`, and such a permutation is
unique. -/
theorem code_sort_eq_claim_sort (xs : List Intersection)
    (hd : KeysApart Intersection.t xs) :
    (sortByOrd Intersection.t xs).reverse = xs.insertionSort fun a b => a.t ≤ b.t := by
  haveI : IsAntisymm Intersection fun a b => a.t < b.t :=
    ⟨fun _ _ h1 h2 => absurd (lt_trans h1 h2) (lt_irrefl _)⟩
  haveI htot : IsTotal Intersection fun a b => a.t ≤ b.t := ⟨fun a b => le_total a.t b.t⟩
  haveI htr : IsTrans Intersection fun a b => a.t ≤ b.t := ⟨fun _ _ _ h1 h2 => le_trans h1 h2⟩
  have hperm1 : List.Perm ((sortByOrd Intersection.t xs).reverse) xs :=
    (List.reverse_perm _).trans (sortByOrd_perm Intersection.t xs)
  have hperm2 : List.Perm xs (xs.insertionSort fun a b => a.t ≤ b.t) :=
    (List.perm_insertionSort _ xs).symm
  have hs1 : ((sortByOrd Intersection.t xs).reverse).Pairwise fun a b => a.t < b.t := by
    rw [List.pairwise_reverse]
    exact sortByOrd_pairwise_gt Intersection.t xs hd
  have hs2 : (xs.insertionSort fun a b => a.t ≤ b.t).Pairwise fun a b => a.t < b.t := by
    have hle := List.sorted_insertionSort (fun a b => a.t ≤ b.t) xs
    have hne : (xs.insertionSort fun a b => a.t ≤ b.t).Pairwise
        fun a b => eqF64 a.t b.t = false := by
      rw [List.Perm.pairwise_iff (fun h => by rw [eqF64_symm] at h; exact h) hperm2.symm]
      exact hd
    refine (hle.and hne).imp ?_
    rintro a b ⟨h1, h2⟩
    refine lt_of_le_of_ne h1 fun he => ?_
    rw [he] at h2
    simp [eqF64, EPSILON] at h2
  exact List.eq_of_perm_of_sorted (hperm1.trans hperm2) hs1 hs2

/-! ## Claim theorems: CSG filtering (C3) -/

/-- The left child of the epsilon-tie CSG counterexample: one intersection at
t = 0, owns id 1. -/
def tieLeftShape : ShapeC :=
  ⟨1, Transformation.identity, fun _ => none, fun _ => [⟨0, 1⟩], fun _ _ => none,
   fun id => id == 1, []⟩

/-- The right child of the epsilon-tie CSG counterexample: one intersection at
t = 0.000005, owns id 2. -/
def tieRightShape : ShapeC :=
  ⟨2, Transformation.identity, fun _ => none, fun _ => [⟨1/200000, 2⟩], fun _ _ => none,
   fun id => id == 2, []⟩

/-- A Union CSG of the two tie children (bounding box always hit). -/
def tieCsg : GroupData :=
  ⟨[tieLeftShape, tieRightShape], Transformation.identity, fun _ => true, Operation.Union⟩

/-- C3 counterexample: the two children's intersections are within epsilon of
each other (t = 0 from the left child, t = 0.000005 from the right child), so
the code's stable sort under the epsilon `Ord` keeps them in collection order
and `reverse()` walks them in **descending** t order: the code retains the
right child's intersection, while the claim's algorithm (genuinely sorted by
ascending t, then the truth-table walk) retains the left child's. -/
theorem csg_filter_eps_tie :
    GroupData.local_intersect tieCsg (Ray.new Tuple.origin (Tuple.vector 0 0 1))
        = some [⟨1/200000, 2⟩] ∧
      csgClaimAlgorithm Operation.Union tieLeftShape.contains [⟨0, 1⟩, ⟨1/200000, 2⟩]
        = [⟨0, 1⟩] ∧
      some [(⟨1/200000, 2⟩ : Intersection)] ≠ some [(⟨0, 1⟩ : Intersection)] := by
  obtain ⟨ti, hti⟩ := identity_inverse_isSome
  have habs : |(0:ℚ) - 1/200000| = 1/200000 := by
    rw [abs_sub_comm, sub_zero]
    exact abs_of_pos (by norm_num)
  have heq : eqF64 0 (1/200000) = true := by
    rw [eqF64, habs]
    norm_num [EPSILON]
  have hle : rLe Intersection.t (⟨0, 1⟩ : Intersection) ⟨1/200000, 2⟩ := by
    show cmpT 0 (1/200000) ≠ Ordering.gt
    rw [cmpT, heq]
    simp
  have hcollect : collectChildren [tieLeftShape, tieRightShape]
      (Ray.new Tuple.origin (Tuple.vector 0 0 1))
      = some [⟨0, 1⟩, ⟨1/200000, 2⟩] := by
    simp [collectChildren, tieLeftShape, tieRightShape, ShapeC.intersects, hti]
  have hsort : sortByOrd Intersection.t [(⟨0, 1⟩ : Intersection), ⟨1/200000, 2⟩]
      = [⟨0, 1⟩, ⟨1/200000, 2⟩] := by
    simp only [sortByOrd, List.insertionSort, List.orderedInsert]
    rw [if_pos hle]
  refine ⟨?_, ?_, by simp⟩
  · rw [GroupData.local_intersect]
    rw [show tieCsg.bounding_box (Ray.new Tuple.origin (Tuple.vector 0 0 1)) = true from rfl]
    rw [if_neg (by decide : ¬(true = false))]
    rw [show tieCsg.shapes = [tieLeftShape, tieRightShape] from rfl, hcollect, Option.some_bind]
    rw [hsort]
    rfl
  · simp only [csgClaimAlgorithm, List.insertionSort, List.orderedInsert]
    rw [if_pos (show (0:ℚ) ≤ 1/200000 by norm_num)]
    rfl

/-- C3 amended: the claim's description is correct up to two qualifications —
`local_intersect` first short-circuits to `[]` when the ray misses the cached
bounding box, and its sort is by the epsilon-tolerant reversed `Ord`, which
agrees with "ascending t" only when the collected `t` values are pairwise at
least epsilon apart. Under those conditions the CSG `local_intersect` equals
the claim's algorithm (sort ascending by t, then the truth-table walk with
the inside flags toggled after each decision), and `intersection_allowed`
agrees with the claim's Union/Intersection/Difference truth table with
`right_hit = NOT left_hit`. -/
theorem csg_local_intersect_claim_algorithm :
    (∀ (op : Operation) (lhit inl inr : Bool), op ≠ Operation.Group →
      op.intersection_allowed lhit inl inr
        = some (csgClaimTable op lhit (!lhit) inl inr)) ∧
    (∀ (g : GroupData) (r : Ray), g.bounding_box r = false →
      g.local_intersect r = some []) ∧
    (∀ (g : GroupData) (r : Ray) (lc rc : ShapeC) (ls rs : List Intersection),
      g.operation ≠ Operation.Group →
      g.shapes = [lc, rc] →
      g.bounding_box r = true →
      lc.intersects r = some ls →
      rc.intersects r = some rs →
      KeysApart Intersection.t (ls ++ rs) →
      g.local_intersect r = some (csgClaimAlgorithm g.operation lc.contains (ls ++ rs))) := by
  refine ⟨intersection_allowed_eq_claimTable, ?_, ?_⟩
  · intro g r hbb
    simp [GroupData.local_intersect, hbb]
  · intro g r lc rc ls rs hop hsh hbb hl hr hd
    have hleft : g.left = some lc := by
      simp [GroupData.left, hop, hsh]
    have hcollect : collectChildren g.shapes r = some (ls ++ rs) := by
      rw [hsh]
      simp [collectChildren, hl, hr]
    rw [GroupData.local_intersect, hbb]
    simp only [Bool.true_eq_false, if_false, hcollect, Option.some_bind]
    rw [if_neg hop]
    rw [GroupData.filter_intersections, filterGo_eq_claimWalk g lc hop hleft]
    rw [csgClaimAlgorithm, code_sort_eq_claim_sort _ hd]

/-- The left child of the C3 witness CSG: one intersection at t = 1, id 1. -/
def wLeftShape : ShapeC :=
  ⟨1, Transformation.identity, fun _ => none, fun _ => [⟨1, 1⟩], fun _ _ => none,
   fun id => id == 1, []⟩

/-- The right child of the C3 witness CSG: one intersection at t = 2, id 2. -/
def wRightShape : ShapeC :=
  ⟨2, Transformation.identity, fun _ => none, fun _ => [⟨2, 2⟩], fun _ _ => none,
   fun id => id == 2, []⟩

/-- The C3 witness CSG: a Union of the two shapes above. -/
def wCsg : GroupData :=
  ⟨[wLeftShape, wRightShape], Transformation.identity, fun _ => true, Operation.Union⟩

/-- C3 witness: a Union CSG whose children report intersections at t = 1 and
t = 2 (well separated): the code output equals the claim algorithm's output. -/
theorem csg_local_intersect_claim_algorithm_witness :
    GroupData.local_intersect wCsg (Ray.new Tuple.origin (Tuple.vector 0 0 1))
      = some (csgClaimAlgorithm Operation.Union wLeftShape.contains ([⟨1, 1⟩] ++ [⟨2, 2⟩])) := by
  obtain ⟨ti, hti⟩ := identity_inverse_isSome
  exact csg_local_intersect_claim_algorithm.2.2 wCsg
    (Ray.new Tuple.origin (Tuple.vector 0 0 1)) wLeftShape wRightShape [⟨1, 1⟩] [⟨2, 2⟩]
    (by decide) rfl rfl
    (by simp [ShapeC.intersects, wLeftShape, hti])
    (by simp [ShapeC.intersects, wRightShape, hti])
    (by norm_num [KeysApart, List.pairwise_cons, eqF64, EPSILON])

/-! ## shape/material: lighting -/

/-- `Pattern::color_at_object` (default trait method): world point to object
space via the shape's inverse transform, then to pattern space via the
pattern's own inverse transform; both inverses are `.unwrap()`-ed (panic
modelled as `none`). -/
def Pattern.color_at_object (p : Pattern) (shape : ShapeC) (point : Tuple) : Option Color :=
  (shape.transformation.inverse).bind fun sinv =>
    (p.transformation.inverse).map fun pinv =>
      p.color_at (pinv.mulTuple (sinv.mulTuple point))

/-- `Material::lighting`: Phong shading (`shape/material/mod.rs`). -/
def Material.lighting (prims : Prims) (m : Material) (shape : ShapeC) (light : PointLight)
    (point eye_v normal_v : Tuple) (in_shadow : Bool) : Option Color :=
  (m.pattern.color_at_object shape point).map fun pc =>
    let effective_color := pc.mul light.intensity
    let light_v := (light.position.sub point).normalize prims
    let ambient := effective_color.smul m.ambient
    if in_shadow then ambient
    else
      let light_dot_normal := light_v.dot normal_v
      let ds : Color × Color :=
        if light_dot_normal < 0 then (Color.black, Color.black)
        else
          let diffuse := (effective_color.smul m.diffuse).smul light_dot_normal
          let reflect_v := (light_v.reflect normal_v).neg
          let reflect_dot_eye := reflect_v.dot eye_v
          if eqF64 0 reflect_dot_eye || decide (reflect_dot_eye < 0) then (diffuse, Color.black)
          else (diffuse, (light.intensity.smul m.specular).smul (prims.powf reflect_dot_eye
            m.shininess))
      (ambient.add ds.1).add ds.2

/-! ## intersection/prepcomputation.rs -/

/-- The derived per-hit geometry (`intersection/prepcomputation.rs`). -/
structure PrepComputations where
  t : ℚ
  object : ShapeC
  object_id : ℕ
  point : Tuple
  over_point : Tuple
  under_point : Tuple
  eye_v : Tuple
  normal_v : Tuple
  reflect_v : Tuple
  n1 : ℚ
  n2 : ℚ
  inside : Bool

/-- The n1/n2 loop of `PrepComputations::new`: replay the heap's intersection
list (in its backing order) maintaining the stack of currently-entered
shapes; entering pushes, re-meeting the same container id removes it. The
`material(..).unwrap()` on the stack top panics (`none`) when the id lookup
fails. -/
def refractiveLoop (intersection : ShapeIntersection) :
    List ShapeIntersection → List (ShapeC × ℕ) → ℚ → ℚ → Option (ℚ × ℚ)
  | [], _, n1, n2 => some (n1, n2)
  | i :: rest, containers, n1, n2 =>
    (if ShapeIntersection.eqB i intersection then
        match containers.getLast? with
        | some last => Option.map Material.refractive_index (last.1.materialF last.2)
        | none => some 1
      else some n1).bind fun n1v =>
      let containers' :=
        if containers.any fun c => c.1.id == i.object.id then
          containers.filter fun c => !(c.1.id == i.object.id)
        else containers ++ [(i.object, i.object_id)]
      if ShapeIntersection.eqB i intersection then
        (match containers'.getLast? with
          | some last => Option.map Material.refractive_index (last.1.materialF last.2)
          | none => some 1).map fun n2v => (n1v, n2v)
      else
        refractiveLoop intersection rest containers' n1v n2

/-- `PrepComputations::new`: surface point, normal (`normal_at` is
`.unwrap()`-ed — panic on failure), eye vector, inside flip, over/under
points offset by EPSILON, reflection vector and the n1/n2 pair. -/
def PrepComputations.new (prims : Prims) (intersection : ShapeIntersection) (ray : Ray)
    (xs : IntersectionHeap) : Option PrepComputations :=
  let point := ray.position intersection.t
  (intersection.object.normal_at prims intersection.object_id point).bind fun nv0 =>
    let eye_v := ray.direction.neg
    let inre : Bool × Tuple := if nv0.dot eye_v < 0 then (true, nv0.neg) else (false, nv0)
    (refractiveLoop intersection xs [] 0 0).map fun ns =>
      { t := intersection.t
        object := intersection.object
        object_id := intersection.object_id
        point
        over_point := point.add (inre.2.smul EPSILON)
        under_point := point.sub (inre.2.smul EPSILON)
        eye_v
        normal_v := inre.2
        reflect_v := ray.direction.reflect inre.2
        n1 := ns.1
        n2 := ns.2
        inside := inre.1 }

/-- `PrepComputations::schlick`: Schlick's Fresnel approximation with the
total-internal-reflection early return. -/
def PrepComputations.schlick (prims : Prims) (comps : PrepComputations) : ℚ :=
  let cos := comps.eye_v.dot comps.normal_v
  if comps.n2 < comps.n1 then
    let n := comps.n1 / comps.n2
    let sin2_t := n ^ 2 * (1 - cos ^ 2)
    if 1 < sin2_t then 1
    else
      let cos_t := prims.sqrt (1 - sin2_t)
      let r0 := ((comps.n1 - comps.n2) / (comps.n1 + comps.n2)) ^ 2
      r0 + (1 - r0) * (1 - cos_t) ^ 5
  else
    let r0 := ((comps.n1 - comps.n2) / (comps.n1 + comps.n2)) ^ 2
    r0 + (1 - r0) * (1 - cos) ^ 5

/-! ## world/mod.rs -/

/-- A world: the shape forest and at most one light (`world/mod.rs`). -/
structure World where
  shapes : List ShapeC
  light : Option PointLight

/-- `Ray::intersections(shape)`: push one `ShapeIntersection` per raw
intersection, carrying the container and the primitive id. -/
def Ray.intersections (r : Ray) (shape : ShapeC) : Option IntersectionHeap :=
  (shape.intersects r).map fun is =>
    is.foldl (fun heap i => IntersectionHeap.push heap ⟨i.t, shape, i.object⟩)
      IntersectionHeap.new

/-- The shape loop of `World::intersects`. -/
def worldIntersectsGo (r : Ray) : List ShapeC → IntersectionHeap → Option IntersectionHeap
  | [], heap => some heap
  | s :: rest, heap =>
    (r.intersections s).bind fun is => worldIntersectsGo r rest (heap ++ is)

/-- `World::intersects`. -/
def World.intersects (w : World) (r : Ray) : Option IntersectionHeap :=
  worldIntersectsGo r w.shapes IntersectionHeap.new

/-- `World::is_shadowed`: with no light, false without casting any ray;
otherwise shadow iff some hit lies strictly closer than the light. -/
def World.is_shadowed (prims : Prims) (w : World) (point : Tuple) : Option Bool :=
  match w.light with
  | some l =>
    let v := l.position.sub point
    let distance := v.magnitude prims
    let direction := v.normalize prims
    (w.intersects (Ray.new point direction)).map fun xs =>
      match IntersectionHeap.hit xs with
      | some h => decide (h.t < distance)
      | none => false
  | none => some false

/-- The body of `World::reflected_color` for a given continuation
`color_at_prev`, which stands for `self.color_at_recursive(·, remaining - 1)`
(the `World` receiver is consulted only through that recursive call): black
when `remaining <= 0` (short-circuiting before the material lookup) or the
reflective coefficient is `eq_f64`-zero; otherwise recurse and scale. -/
def World.reflected_color_body (comps : PrepComputations)
    (color_at_prev : Ray → Option Color) : ℕ → Option Color
  | 0 => some Color.black
  | _ + 1 =>
    (comps.object.materialF comps.object_id).bind fun m =>
      if eqF64 m.reflective 0 then some Color.black
      else
        (color_at_prev (Ray.new comps.over_point comps.reflect_v)).bind fun color =>
          (comps.object.materialF comps.object_id).map fun m2 => color.smul m2.reflective

/-- The body of `World::refracted_color` for a given continuation: black when
`remaining == 0`, the transparency is `eq_f64`-zero, or under total internal
reflection; otherwise recurse on the refracted ray and scale. -/
def World.refracted_color_body (prims : Prims) (comps : PrepComputations)
    (color_at_prev : Ray → Option Color) : ℕ → Option Color
  | 0 => some Color.black
  | _ + 1 =>
    (comps.object.materialF comps.object_id).bind fun m =>
      if eqF64 m.transparency 0 then some Color.black
      else
        let nRat := comps.n1 / comps.n2
        let cos_i := comps.eye_v.dot comps.normal_v
        let sin2_t := nRat ^ 2 * (1 - cos_i ^ 2)
        if 1 < sin2_t then some Color.black
        else
          let cos_t := prims.sqrt (1 - sin2_t)
          let direction := (comps.normal_v.smul (nRat * cos_i - cos_t)).sub
            (comps.eye_v.smul nRat)
          (color_at_prev (Ray.new comps.under_point direction)).bind fun c =>
            (comps.object.materialF comps.object_id).map fun m2 => c.smul m2.transparency

/-- The body of `World::shade_hit_recursive` for a given continuation: shadow
test, direct Phong surface term (material defaulted when the id lookup
fails), reflected and refracted contributions, then the Schlick blend when
both coefficients are positive (this material lookup is `.unwrap()`-ed). -/
def World.shade_hit_body (prims : Prims) (w : World) (comps : PrepComputations)
    (color_at_prev : Ray → Option Color) (remaining : ℕ) : Option Color :=
  (w.is_shadowed prims comps.over_point).bind fun shadowed =>
    match w.light with
    | some light =>
      (((comps.object.materialF comps.object_id).getD Material.default).lighting prims
          comps.object light comps.over_point comps.eye_v comps.normal_v shadowed).bind
        fun surface =>
        (World.reflected_color_body comps color_at_prev remaining).bind fun reflected =>
          (World.refracted_color_body prims comps color_at_prev remaining).bind fun refracted =>
            (comps.object.materialF comps.object_id).bind fun material =>
              if 0 < material.reflective ∧ 0 < material.transparency then
                let reflectance := comps.schlick prims
                some ((surface.add (reflected.smul reflectance)).add
                  (refracted.smul (1 - reflectance)))
              else
                some ((surface.add reflected).add refracted)
    | none => some Color.black

/-- The body of `World::color_at_recursive` for a given continuation:
intersect, take the hit, precompute, shade; black when the ray misses. -/
def World.color_at_body (prims : Prims) (w : World) (color_at_prev : Ray → Option Color)
    (remaining : ℕ) (ray : Ray) : Option Color :=
  (w.intersects ray).bind fun intersections =>
    match IntersectionHeap.hit intersections with
    | some hit =>
      (PrepComputations.new prims hit ray intersections).bind fun comps =>
        World.shade_hit_body prims w comps color_at_prev remaining
    | none => some Color.black

/-- The recursion driver: structural recursion on the remaining-bounce
counter. At level `r + 1` the continuation is the level-`r` function —
exactly `color_at_recursive(·, remaining - 1)` in the source. At level 0 the
continuation is never consulted (`reflected_color_body`/`refracted_color_body`
return black at 0 before touching it, definitionally), so an arbitrary
constant stands in. -/
def World.colorAtDriver (prims : Prims) (w : World) : ℕ → Ray → Option Color
  | 0 => World.color_at_body prims w (fun _ => some Color.black) 0
  | r + 1 => World.color_at_body prims w (World.colorAtDriver prims w r) (r + 1)

/-- `World::color_at_recursive`. -/
def World.color_at_recursive (prims : Prims) (w : World) (ray : Ray) (remaining : ℕ) :
    Option Color :=
  World.colorAtDriver prims w remaining ray

/-- `World::shade_hit_recursive`. -/
def World.shade_hit_recursive (prims : Prims) (w : World) (comps : PrepComputations)
    (remaining : ℕ) : Option Color :=
  World.shade_hit_body prims w comps
    (fun ray => World.color_at_recursive prims w ray (remaining - 1)) remaining

/-- `World::reflected_color`. -/
def World.reflected_color (prims : Prims) (w : World) (comps : PrepComputations)
    (remaining : ℕ) : Option Color :=
  World.reflected_color_body comps
    (fun ray => World.color_at_recursive prims w ray (remaining - 1)) remaining

/-- `World::refracted_color`. -/
def World.refracted_color (prims : Prims) (w : World) (comps : PrepComputations)
    (remaining : ℕ) : Option Color :=
  World.refracted_color_body prims comps
    (fun ray => World.color_at_recursive prims w ray (remaining - 1)) remaining

/-- Unfolding `color_at_recursive`: at every depth it intersects, takes the
hit, precomputes and shades at the same depth (the level-0 stand-in
continuation is definitionally irrelevant). -/
theorem color_at_recursive_eq (prims : Prims) (w : World) (ray : Ray) (rem : ℕ) :
    World.color_at_recursive prims w ray rem
      = (w.intersects ray).bind fun intersections =>
          match IntersectionHeap.hit intersections with
          | some hit =>
            (PrepComputations.new prims hit ray intersections).bind fun comps =>
              World.shade_hit_recursive prims w comps rem
          | none => some Color.black := by
  cases rem <;> rfl

/-- `World::shade_hit`: the bounce counter starts at 5. -/
def World.shade_hit (prims : Prims) (w : World) (comps : PrepComputations) : Option Color :=
  World.shade_hit_recursive prims w comps 5

/-- `World::color_at`: the bounce counter starts at 5. -/
def World.color_at (prims : Prims) (w : World) (ray : Ray) : Option Color :=
  World.color_at_recursive prims w ray 5

/-! ## Claim theorems: the bounce counter (C4) -/

/-- C4: color resolution is bounded by an explicit remaining-bounce counter
initialized to 5 — `shade_hit`/`color_at` enter the recursion at 5 and pass
the counter down; `reflected_color` and `refracted_color` return black when
`remaining` is 0 or when the reflective (respectively transparency)
coefficient is epsilon-equal to 0, and otherwise recurse into `color_at`
with `remaining - 1` (`refracted_color` additionally short-circuits to black
under total internal reflection, before any recursion). Termination for every
world and ray — mutually reflective scenes included — is witnessed by the
model itself: the functions are total Lean definitions whose recursion is
structural on the counter, every `color_at` re-entry happening at
`remaining - 1`. -/
theorem bounce_counter_recursion (prims : Prims) :
    (∀ (w : World) (comps : PrepComputations),
      World.shade_hit prims w comps = World.shade_hit_recursive prims w comps 5) ∧
    (∀ (w : World) (r : Ray),
      World.color_at prims w r = World.color_at_recursive prims w r 5) ∧
    (∀ (w : World) (comps : PrepComputations),
      World.reflected_color prims w comps 0 = some Color.black ∧
        World.refracted_color prims w comps 0 = some Color.black) ∧
    (∀ (w : World) (comps : PrepComputations) (rem : ℕ) (m : Material),
      comps.object.materialF comps.object_id = some m →
      (eqF64 m.reflective 0 = true →
        World.reflected_color prims w comps rem = some Color.black) ∧
      (eqF64 m.transparency 0 = true →
        World.refracted_color prims w comps rem = some Color.black)) ∧
    (∀ (w : World) (comps : PrepComputations) (rem : ℕ) (m : Material),
      comps.object.materialF comps.object_id = some m →
      eqF64 m.reflective 0 = false →
      World.reflected_color prims w comps (rem + 1)
        = (World.color_at_recursive prims w (Ray.new comps.over_point comps.reflect_v)
            rem).bind fun c => some (c.smul m.reflective)) ∧
    (∀ (w : World) (comps : PrepComputations) (rem : ℕ) (m : Material),
      comps.object.materialF comps.object_id = some m →
      eqF64 m.transparency 0 = false →
      (1 < (comps.n1 / comps.n2) ^ 2 * (1 - (comps.eye_v.dot comps.normal_v) ^ 2) →
        World.refracted_color prims w comps (rem + 1) = some Color.black) ∧
      (¬(1 < (comps.n1 / comps.n2) ^ 2 * (1 - (comps.eye_v.dot comps.normal_v) ^ 2)) →
        World.refracted_color prims w comps (rem + 1)
          = (World.color_at_recursive prims w
              (Ray.new comps.under_point
                ((comps.normal_v.smul ((comps.n1 / comps.n2) *
                    (comps.eye_v.dot comps.normal_v) -
                    prims.sqrt (1 - (comps.n1 / comps.n2) ^ 2 *
                      (1 - (comps.eye_v.dot comps.normal_v) ^ 2)))).sub
                  (comps.eye_v.smul (comps.n1 / comps.n2))))
              rem).bind fun c => some (c.smul m.transparency))) := by
  refine ⟨fun w comps => rfl, fun w r => rfl, fun w comps => ⟨rfl, rfl⟩, ?_, ?_, ?_⟩
  · intro w comps rem m hm
    constructor
    · intro hz
      cases rem with
      | zero => rfl
      | succ r =>
        simp [World.reflected_color, World.reflected_color_body, hm, hz]
    · intro hz
      cases rem with
      | zero => rfl
      | succ r =>
        simp [World.refracted_color, World.refracted_color_body, hm, hz]
  · intro w comps rem m hm hz
    simp [World.reflected_color, World.reflected_color_body, hm, hz]
  · intro w comps rem m hm hz
    constructor
    · intro htir
      simp [World.refracted_color, World.refracted_color_body, hm, hz, htir]
    · intro htir
      simp [World.refracted_color, World.refracted_color_body, hm, hz, htir]

/-- The material for the C4 witness: reflective and transparency 1/2. -/
def halfMaterial : Material :=
  { Material.default with reflective := 1/2, transparency := 1/2 }

/-- C4 witness: concrete instantiations at a shape carrying the default
material (reflective and transparency 0, so both helpers short-circuit) and
at one carrying `halfMaterial`, where `reflected_color` recurses into
`color_at` with the counter decremented. -/
theorem bounce_counter_recursion_witness :
    World.reflected_color ⟨fun _ => 0, fun _ _ => 0⟩ ⟨[], none⟩
        ⟨1, ⟨7, Transformation.identity, fun id => if id = 7 then some Material.default
            else none, fun _ => [], fun _ _ => none, fun _ => false, []⟩, 7,
          Tuple.origin, Tuple.origin, Tuple.origin, Tuple.vector 0 0 (-1),
          Tuple.vector 0 0 (-1), Tuple.vector 0 0 1, 1, 1, false⟩ 3
      = some Color.black ∧
    World.reflected_color ⟨fun _ => 0, fun _ _ => 0⟩ ⟨[], none⟩
        ⟨1, ⟨8, Transformation.identity, fun id => if id = 8 then some halfMaterial
            else none, fun _ => [], fun _ _ => none, fun _ => false, []⟩, 8,
          Tuple.origin, Tuple.origin, Tuple.origin, Tuple.vector 0 0 (-1),
          Tuple.vector 0 0 (-1), Tuple.vector 0 0 1, 1, 1, false⟩ (2 + 1)
      = (World.color_at_recursive ⟨fun _ => 0, fun _ _ => 0⟩ ⟨[], none⟩
          (Ray.new Tuple.origin (Tuple.vector 0 0 1)) 2).bind
          fun c => some (c.smul (1/2)) := by
  constructor
  · exact ((bounce_counter_recursion ⟨fun _ => 0, fun _ _ => 0⟩).2.2.2.1 ⟨[], none⟩
      _ 3 Material.default (by simp)).1
      (by norm_num [Material.default, eqF64, EPSILON, sub_zero, abs_zero])
  · refine (bounce_counter_recursion ⟨fun _ => 0, fun _ _ => 0⟩).2.2.2.2.1 ⟨[], none⟩
      _ 2 halfMaterial (by simp) ?_
    have hr2 : halfMaterial.reflective = 1/2 := rfl
    rw [eqF64, hr2, sub_zero, abs_of_pos (show (0:ℚ) < 1/2 by norm_num)]
    norm_num [EPSILON]

/-- The primitives for the C4 counterexample (`sqrt` is never consulted on a
meaningful input: the counterexample lives in the total-internal-reflection
branch). -/
def tirPrims : Prims := ⟨fun _ => 0, fun _ _ => 0⟩

/-- The shape whose material the C4 counterexample's precomputation carries:
transparency 1/2, so `refracted_color` does not short-circuit on the
coefficient. -/
def tirShape : ShapeC :=
  ⟨10, Transformation.identity, fun id => if id = 10 then some halfMaterial else none,
    fun _ => [], fun _ _ => none, fun _ => false, []⟩

/-- The precomputation for the C4 counterexample: n1 = 2 entering n2 = 1 with
the eye perpendicular to the normal, so sin2_t = (n1/n2)^2 * (1 - cos_i^2) = 4
> 1 — total internal reflection. -/
def tirComps : PrepComputations :=
  ⟨1, tirShape, 10, Tuple.origin, Tuple.origin, Tuple.origin, Tuple.vector 1 0 0,
    Tuple.vector 0 1 0, Tuple.vector 0 0 1, 2, 1, false⟩

/-- The world for the C4 counterexample: its one shape has a non-invertible
transform, so `color_at_recursive` panics (`none`) on every ray. -/
def tirWorldShape : ShapeC :=
  ⟨11, degenTransformation, fun _ => none, fun _ => [], fun _ _ => none, fun _ => false, []⟩

/-- See `tirWorldShape`. -/
def tirWorld : World := ⟨[tirWorldShape], none⟩

/-- C4 counterexample: with remaining = 3 > 0 and transparency 1/2 not
epsilon-equal to 0, the claim says `refracted_color` recurses into `color_at`
with remaining - 1 — but under total internal reflection it returns black
without recursing: here `refracted_color` is black while recursing into
`color_at` at remaining 2 on the refracted ray (direction
(n1/n2)(cos_i)·normal - cos_t·normal - (n1/n2)·eye = (-2, 0, 0)) would panic
(`none`) on this world. -/
theorem refracted_color_tir_no_recursion :
    tirComps.object.materialF tirComps.object_id = some halfMaterial ∧
    eqF64 halfMaterial.transparency 0 = false ∧
    World.refracted_color tirPrims tirWorld tirComps 3 = some Color.black ∧
    (World.color_at_recursive tirPrims tirWorld
        (Ray.new tirComps.under_point (Tuple.vector (-2) 0 0)) 2).bind
      (fun c => some (c.smul halfMaterial.transparency)) = none ∧
    (some Color.black : Option Color) ≠ none := by
  have htz : eqF64 halfMaterial.transparency 0 = false := by
    have hr2 : halfMaterial.transparency = 1/2 := rfl
    rw [eqF64, hr2, sub_zero, abs_of_pos (show (0:ℚ) < 1/2 by norm_num)]
    norm_num [EPSILON]
  refine ⟨rfl, htz, ?_, ?_, by simp⟩
  · show World.refracted_color_body tirPrims tirComps _ (2 + 1) = some Color.black
    norm_num [World.refracted_color_body, tirComps, tirShape, htz, Tuple.dot, Tuple.vector]
  · have hint : tirWorld.intersects
        (Ray.new tirComps.under_point (Tuple.vector (-2) 0 0)) = none := by
      show worldIntersectsGo _ [tirWorldShape] IntersectionHeap.new = none
      rw [worldIntersectsGo, Ray.intersections]
      simp [ShapeC.intersects, tirWorldShape, degenTransformation_inverse]
    rw [color_at_recursive_eq, hint]
    rfl

/-! ## Claim theorems: world without a light (C9) -/

/-- C9 amended: with no light set, `shade_hit` (at any depth) returns black
and never panics, and `is_shadowed` returns false without casting a ray;
`color_at` returns black for every ray whose shape-intersection and
precomputation steps do not panic, and any such panic (from a degenerate
transform or failed id lookup) occurs identically when a light is present —
so the absence of a light never causes a panic. -/
theorem no_light_black (prims : Prims) :
    (∀ (w : World) (comps : PrepComputations) (rem : ℕ), w.light = none →
      World.shade_hit_recursive prims w comps rem = some Color.black) ∧
    (∀ (w : World) (comps : PrepComputations), w.light = none →
      World.shade_hit prims w comps = some Color.black) ∧
    (∀ (w : World) (p : Tuple), w.light = none →
      World.is_shadowed prims w p = some false) ∧
    (∀ (w : World) (r : Ray) (rem : ℕ), w.light = none →
      World.color_at_recursive prims w r rem = some Color.black ∨
        World.color_at_recursive prims w r rem = none) ∧
    (∀ (w : World) (r : Ray) (rem : ℕ) (l : PointLight), w.light = none →
      World.color_at_recursive prims w r rem = none →
      World.color_at_recursive prims { shapes := w.shapes, light := some l } r rem
        = none) := by
  have hshadow : ∀ (w : World) (p : Tuple), w.light = none →
      World.is_shadowed prims w p = some false := by
    intro w p hl
    rw [World.is_shadowed, hl]
  have hshade : ∀ (w : World) (comps : PrepComputations) (rem : ℕ), w.light = none →
      World.shade_hit_recursive prims w comps rem = some Color.black := by
    intro w comps rem hl
    rw [World.shade_hit_recursive, World.shade_hit_body, hshadow w _ hl,
      Option.some_bind, hl]
  refine ⟨hshade, fun w comps hl => hshade w comps 5 hl, hshadow, ?_, ?_⟩
  · intro w r rem hl
    rw [color_at_recursive_eq]
    cases hx : w.intersects r with
    | none => right; rfl
    | some xs =>
      rw [Option.some_bind]
      cases hh : IntersectionHeap.hit xs with
      | none => left; simp
      | some hit =>
        cases hp : PrepComputations.new prims hit r xs with
        | none => right; simp [hp]
        | some comps =>
          left
          simp [hp, hshade w comps rem hl]
  · intro w r rem l hl hnone
    rw [color_at_recursive_eq] at hnone ⊢
    have hint : World.intersects { shapes := w.shapes, light := some l } r
        = World.intersects w r := rfl
    rw [hint]
    cases hx : w.intersects r with
    | none => rfl
    | some xs =>
      rw [hx, Option.some_bind] at hnone
      rw [Option.some_bind]
      cases hh : IntersectionHeap.hit xs with
      | none =>
        rw [hh] at hnone
        simp at hnone
      | some hit =>
        rw [hh] at hnone
        cases hp : PrepComputations.new prims hit r xs with
        | none => simp [hp]
        | some comps =>
          simp [hp, hshade w comps rem hl] at hnone

/-- The degenerate shape used by the C9 counterexample: a shape whose
transform is the non-invertible scale-by-zero. -/
def degenShape9 : ShapeC :=
  ⟨9, degenTransformation, fun _ => none, fun _ => [], fun _ _ => none, fun _ => false, []⟩

/-- C9 counterexample: a world with no light containing a shape with a
non-invertible transform: `color_at` does not return black for this ray — it
panics (`none`) inside `World::intersects` (the panic is independent of the
light, per the amended theorem). -/
theorem no_light_color_at_panics :
    (World.color_at ⟨fun _ => 0, fun _ _ => 0⟩ ⟨[degenShape9], none⟩
        (Ray.new Tuple.origin (Tuple.vector 0 0 1)) = none) ∧
      (⟨[degenShape9], none⟩ : World).light = none ∧
      (none : Option Color) ≠ some Color.black := by
  refine ⟨?_, rfl, by simp⟩
  rw [World.color_at, color_at_recursive_eq]
  have hint : World.intersects ⟨[degenShape9], none⟩ (Ray.new Tuple.origin (Tuple.vector 0 0 1))
      = none := by
    rw [World.intersects, worldIntersectsGo, Ray.intersections]
    simp [ShapeC.intersects, degenShape9, degenTransformation_inverse]
  rw [hint]
  rfl

end RT
